import Mathlib

/-! Verification development for the grading engine of `grading_system.py`.

Modelling conventions:
* Python floats are modelled as exact rational numbers (`ℚ`).
* Python dicts are modelled as insertion-ordered association lists
  (`List (String × ·)`): `dictInsert` updates the first occurrence of a key
  in place and appends a fresh key at the end; `dictLookup` returns the value
  at the first occurrence.  This matches the observable behaviour of
  `dict.__setitem__` / `dict.get` / `in` (keys are unique in a Python dict,
  so "first occurrence" is exact on reachable states).
* `str.strip` / `str.lower` are modelled character-wise (`pyStrip`,
  `pyLower`); `float(...)` is modelled by `pyFloat?` on plain decimal
  literals (optional sign, digits, optional fractional part), returning
  `none` otherwise — mirroring the `try: float(val) except ValueError`
  pattern of the source.
* `round(x, 2)` is modelled by `pyRound2` using round-half-to-even, the
  documented behaviour of Python's `round`.
* `statistics.mean` is the sum divided by the length; `statistics.stdev` is
  the square root of the unbiased (N-1) sample variance.  The variance is
  kept in `ℚ`; the square root only appears in specification statements
  (over `ℝ`), with `outlierCheck` as the executable decision procedure for
  the comparison `|x - mean| > t * sqrt var`.
-/

namespace Grading

universe u

variable {α : Type u}

/-- Lookup of the first occurrence of a key in an association list
(Python `d[k]` / `d.get(k)`). -/
def dictLookup (k : String) : List (String × α) → Option α
  | [] => none
  | (k', v) :: rest => if k' = k then some v else dictLookup k rest

/-- Python `d[k] = v`: update the first occurrence of `k` in place,
append `(k, v)` at the end if `k` is absent. -/
def dictInsert (k : String) (v : α) : List (String × α) → List (String × α)
  | [] => [(k, v)]
  | (k', v') :: rest => if k' = k then (k, v) :: rest else (k', v') :: dictInsert k v rest

/-- Update the value at the first occurrence of a key, leaving the list
unchanged when the key is absent (Python mutation of `d[k]` when `k in d`). -/
def updAt (k : String) (f : α → α) : List (String × α) → List (String × α)
  | [] => []
  | (k', v) :: rest => if k' = k then (k', f v) :: rest else (k', v) :: updAt k f rest

/-- Characters removed by Python `str.strip()`. -/
def pySpace (c : Char) : Bool :=
  c = ' ' || c = '\t' || c = '\n' || c = '\r' || c = '\x0b' || c = '\x0c'

/-- Python `str.strip()`. -/
def pyStrip (s : String) : String :=
  ⟨((s.data.dropWhile pySpace).reverse.dropWhile pySpace).reverse⟩

/-- Lower-casing of a single ASCII character. -/
def pyLowerChar (c : Char) : Char :=
  if 65 ≤ c.toNat ∧ c.toNat ≤ 90 then Char.ofNat (c.toNat + 32) else c

/-- Python `str.lower()` (ASCII range, which covers the `"id"` header test). -/
def pyLower (s : String) : String := ⟨s.data.map pyLowerChar⟩

/-- Value of a list of decimal digit characters. -/
def digitsToNat (l : List Char) : ℕ :=
  l.foldl (fun acc c => acc * 10 + (c.toNat - 48)) 0

/-- Python `float(s)` on plain decimal literals: optional sign, digits,
optional `.` and fractional digits; `none` models `ValueError`. -/
def pyFloat? (s : String) : Option ℚ :=
  let cs := s.data
  let sgn : ℚ := if cs.head? = some '-' then -1 else 1
  let cs := if cs.head? = some '-' ∨ cs.head? = some '+' then cs.drop 1 else cs
  let ip := cs.takeWhile Char.isDigit
  let rest := cs.dropWhile Char.isDigit
  match rest with
  | [] => if ip = [] then none else some (sgn * digitsToNat ip)
  | '.' :: fp =>
      if fp.all Char.isDigit ∧ (ip ≠ [] ∨ fp ≠ []) then
        some (sgn * ((digitsToNat ip : ℚ) + (digitsToNat fp : ℚ) / (10 : ℚ) ^ fp.length))
      else none
  | _ => none

/-- Round-half-to-even to an integer, the behaviour of Python `round`. -/
def pyRoundHalfEven (x : ℚ) : ℤ :=
  if x - ⌊x⌋ < 1/2 then ⌊x⌋
  else if 1/2 < x - ⌊x⌋ then ⌊x⌋ + 1
  else if ⌊x⌋ % 2 = 0 then ⌊x⌋ else ⌊x⌋ + 1

/-- Python `round(x, 2)`. -/
def pyRound2 (x : ℚ) : ℚ := (pyRoundHalfEven (x * 100) : ℚ) / 100

/-- The `Student` class: id, display name, and the per-assignment score dict. -/
structure Student where
  id : String
  name : String
  scores : List (String × ℚ)
deriving DecidableEq

/-- The `Assignment` class: name, weight and maximal score. -/
structure Assignment where
  name : String
  weight : ℚ
  max_score : ℚ
deriving DecidableEq

/-- The `Course` class: the aggregate owning the student and assignment dicts. -/
structure Course where
  course_code : String
  title : String
  students : List (String × Student)
  assignments : List (String × Assignment)
deriving DecidableEq

/-- Sum of all assignment weights (`total_weight = sum(weights.values())`). -/
def totalWeight (c : Course) : ℚ :=
  (c.assignments.map (fun a => a.2.weight)).sum

/-- The divisor actually used: `if total_weight == 0: total_weight = 1.0`. -/
def effTotalWeight (c : Course) : ℚ :=
  if totalWeight c = 0 then 1 else totalWeight c

/-- One assignment's contribution to a student's total:
`perc = (score / max_score) * 100 if max_score else 0.0` followed by
`perc * (weight / total_weight)`.  The score defaults to `0.0` when the
student has no recorded score (`student.scores.get(aname, 0.0)`). -/
def contrib (tw : ℚ) (scores : List (String × ℚ)) (a : String × Assignment) : ℚ :=
  (if a.2.max_score ≠ 0 then (dictLookup a.1 scores).getD 0 / a.2.max_score * 100 else 0)
    * (a.2.weight / tw)

/-- The accumulation loop `total = 0.0; for aname, assignment in ...: total += ...`. -/
def studentTotal (c : Course) (st : Student) : ℚ :=
  c.assignments.foldl (fun tot a => tot + contrib (effTotalWeight c) st.scores a) 0

/-- `Course.calculate_weighted_scores`: one rounded total per student. -/
def calculate_weighted_scores (c : Course) : List (String × ℚ) :=
  c.students.map (fun p => (p.1, pyRound2 (studentTotal c p.2)))

/-- The `numeric_to_letter` utility. -/
def numeric_to_letter (score : ℚ) : String :=
  if 90 ≤ score then "A"
  else if 80 ≤ score then "B"
  else if 70 ≤ score then "C"
  else if 60 ≤ score then "D"
  else "F"

/-- The collection loop of `detect_outliers`: the `(s.id, s.scores[aname])`
pairs of students having a recorded score, in stored (insertion) order. -/
def scoresFor (c : Course) (an : String) : List (String × ℚ) :=
  c.students.filterMap (fun p => (dictLookup an p.2.scores).map (fun v => (p.2.id, v)))

/-- Python `statistics.mean`. -/
def mean (l : List ℚ) : ℚ := l.sum / l.length

/-- Unbiased (N-1) sample variance; `statistics.stdev` is its square root. -/
def sampleVar (l : List ℚ) : ℚ :=
  (l.map (fun v => (v - mean l) ^ 2)).sum / ((l.length : ℚ) - 1)

/-- Executable decision of `d > t * sqrt var` for `0 ≤ d`, `0 ≤ var`
(the source compares against `threshold_stddev * stdev` in floats; this is
the exact-arithmetic equivalent, certified by `outlierCheck_iff` below). -/
def outlierCheck (d t var : ℚ) : Bool :=
  if 0 ≤ t then decide (t ^ 2 * var < d ^ 2)
  else (decide (0 < var) || decide (0 < d))

/-- `Course.detect_outliers`: the source returns `[]` when no scores or fewer
than two scores exist, skips everyone when the stdev is `0` (`stdev == 0:
continue`), and otherwise keeps the pairs whose deviation from the mean
exceeds `threshold_stddev * stdev`. -/
def detect_outliers (c : Course) (an : String) (t : ℚ) : List (String × ℚ) :=
  let scores := scoresFor c an
  if scores = [] then []
  else if scores.length < 2 then []
  else
    let m := mean (scores.map Prod.snd)
    let v := sampleVar (scores.map Prod.snd)
    scores.filter (fun p => !(decide (v = 0)) && outlierCheck |p.2 - m| t v)

/-- Auto-registration at the dict level:
`if aname not in assignments: assignments[aname] = Assignment(aname, 0.0)`
(default `max_score=100.0`). -/
def ensD (m : List (String × Assignment)) (an : String) : List (String × Assignment) :=
  if (dictLookup an m).isSome then m else dictInsert an ⟨an, 0, 100⟩ m

/-- Auto-registration of an assignment on the course. -/
def ensureAssignment (c : Course) (an : String) : Course :=
  { c with assignments := ensD c.assignments an }

/-- A single score write `students[sid].scores[aname] = score` on the
student dict. -/
def applyRec (studs : List (String × Student)) (r : String × String × ℚ) :
    List (String × Student) :=
  updAt r.1 (fun st => { st with scores := dictInsert r.2.1 r.2.2 st.scores }) studs

/-- A sequence of score writes, performed left to right. -/
def applyRecs (studs : List (String × Student)) (rs : List (String × String × ℚ)) :
    List (String × Student) :=
  rs.foldl applyRec studs

/-- A sequence of auto-registrations, performed left to right. -/
def applyEns (m : List (String × Assignment)) (names : List String) :
    List (String × Assignment) :=
  names.foldl ensD m

/-- A single score write `students[sid].scores[aname] = score` on the course. -/
def recordScore (c : Course) (sid an : String) (v : ℚ) : Course :=
  { c with students := applyRec c.students (sid, an, v) }

/-- Observation of one recorded score: `students[sid].scores.get(an)`. -/
def svLookup (sid an : String) (studs : List (String × Student)) : Option ℚ :=
  (dictLookup sid studs).bind (fun st => dictLookup an st.scores)

/-- Value of the `i`-th cell of a wide-format row: `none` when the row is too
short (`if i >= len(row): continue`), when the stripped cell is blank, or
when `float(val)` raises. -/
def cellVal (row : List String) (i : ℕ) : Option ℚ :=
  match row.get? i with
  | none => none
  | some cell =>
      let v := pyStrip cell
      if v = "" then none else pyFloat? v

/-- Processing of one assignment cell of a wide-format row (`ian` is the
1-based-shifted `enumerate(assignment_names, start=1)` entry). -/
def wideCell (sid : String) (row : List String) (c : Course) (ian : ℕ × String) : Course :=
  match cellVal row (ian.1 + 1) with
  | none => c
  | some score => recordScore (ensureAssignment c ian.2) sid ian.2 score

/-- Python `sid in self.students`. -/
def known (c : Course) (sid : String) : Bool := (dictLookup sid c.students).isSome

/-- Processing of one wide-format data row: empty rows are skipped, unknown
student ids fail the whole row, otherwise each cell is applied and the row
counts as processed exactly once. -/
def wideRow (anames : List String) (acc : Course × ℕ × ℕ) (row : List String) :
    Course × ℕ × ℕ :=
  if row = [] then acc
  else
    let sid := pyStrip (row.getD 0 "")
    if known acc.1 sid then
      (anames.enum.foldl (wideCell sid row) acc.1, acc.2.1 + 1, acc.2.2)
    else (acc.1, acc.2.1, acc.2.2 + 1)

/-- Processing of one narrow-format row `(id, assignment, score)`. -/
def narrowRow (acc : Course × ℕ × ℕ) (row : List String) : Course × ℕ × ℕ :=
  if row.length < 3 then (acc.1, acc.2.1, acc.2.2 + 1)
  else
    let sid := pyStrip (row.getD 0 "")
    let an := pyStrip (row.getD 1 "")
    match pyFloat? (pyStrip (row.getD 2 "")) with
    | none => (acc.1, acc.2.1, acc.2.2 + 1)
    | some score =>
        if known acc.1 sid then
          (recordScore (ensureAssignment acc.1 an) sid an score, acc.2.1 + 1, acc.2.2)
        else (acc.1, acc.2.1, acc.2.2 + 1)

/-- Format detection: `first and first[0].strip().lower() == "id"`. -/
def isWideHeader (first : List String) : Bool :=
  !(decide (first = [])) && decide (pyLower (pyStrip (first.getD 0 "")) = "id")

/-- `Course.bulk_import_grades_csv` on already-tokenized rows, returning the
updated course and the `(processed, failed)` counters. -/
def bulk_import_grades_csv (c : Course) (rows : List (List String)) : Course × ℕ × ℕ :=
  match rows with
  | [] => (c, 0, 0)
  | first :: rest =>
      if isWideHeader first then
        rest.foldl (wideRow ((first.map pyStrip).drop 1)) (c, 0, 0)
      else
        rows.foldl narrowRow (c, 0, 0)

/-- Score writes performed by one cell of a wide-format row (trace form). -/
def cellRecs (sid : String) (row : List String) (ian : ℕ × String) :
    List (String × String × ℚ) :=
  match cellVal row (ian.1 + 1) with
  | none => []
  | some score => [(sid, ian.2, score)]

/-- Auto-registrations performed by one cell of a wide-format row (trace form). -/
def cellEnss (row : List String) (ian : ℕ × String) : List String :=
  match cellVal row (ian.1 + 1) with
  | none => []
  | some _ => [ian.2]

/-- Score writes performed by one wide-format row, as a function of the
(state-invariant) student-membership predicate. -/
def rowRecs (kn : String → Bool) (anames : List String) (row : List String) :
    List (String × String × ℚ) :=
  if row = [] then []
  else
    let sid := pyStrip (row.getD 0 "")
    if kn sid then anames.enum.flatMap (cellRecs sid row) else []

/-- Auto-registrations performed by one wide-format row. -/
def rowEnss (kn : String → Bool) (anames : List String) (row : List String) :
    List String :=
  if row = [] then []
  else if kn (pyStrip (row.getD 0 "")) then anames.enum.flatMap (cellEnss row) else []

/-- Counter increments `(processed, failed)` of one wide-format row. -/
def rowCount (kn : String → Bool) (row : List String) : ℕ × ℕ :=
  if row = [] then (0, 0)
  else if kn (pyStrip (row.getD 0 "")) then (1, 0) else (0, 1)

/-- Score writes performed by one narrow-format row. -/
def nrowRecs (kn : String → Bool) (row : List String) : List (String × String × ℚ) :=
  if row.length < 3 then []
  else
    match pyFloat? (pyStrip (row.getD 2 "")) with
    | none => []
    | some score =>
        if kn (pyStrip (row.getD 0 "")) then
          [(pyStrip (row.getD 0 ""), pyStrip (row.getD 1 ""), score)]
        else []

/-- Auto-registrations performed by one narrow-format row. -/
def nrowEnss (kn : String → Bool) (row : List String) : List String :=
  if row.length < 3 then []
  else
    match pyFloat? (pyStrip (row.getD 2 "")) with
    | none => []
    | some _ => if kn (pyStrip (row.getD 0 "")) then [pyStrip (row.getD 1 "")] else []

/-- Counter increments `(processed, failed)` of one narrow-format row. -/
def nrowCount (kn : String → Bool) (row : List String) : ℕ × ℕ :=
  if row.length < 3 then (0, 1)
  else
    match pyFloat? (pyStrip (row.getD 2 "")) with
    | none => (0, 1)
    | some _ => if kn (pyStrip (row.getD 0 "")) then (1, 0) else (0, 1)

/-- Concrete course from the spec's worked example: weights `{0.3, 0.7}`,
max scores `{20, 100}`, one student scoring 18 and 85. -/
def demoC1 : Course :=
  { course_code := "demo101", title := "Demo",
    students := [("s1", { id := "s1", name := "Alice", scores := [("HW1", 18), ("Exam", 85)] })],
    assignments := [("HW1", { name := "HW1", weight := 0.3, max_score := 20 }),
                    ("Exam", { name := "Exam", weight := 0.7, max_score := 100 })] }

/-- Concrete course whose weights sum to 0 without all being 0. -/
def mixedWeightCourse : Course :=
  { course_code := "c2", title := "T",
    students := [("s1", { id := "s1", name := "A", scores := [("A1", 100)] })],
    assignments := [("A1", { name := "A1", weight := 1, max_score := 100 }),
                    ("A2", { name := "A2", weight := -1, max_score := 100 })] }

/-- Concrete course whose only assignment has weight 0. -/
def zeroWeightCourse : Course :=
  { course_code := "c2w", title := "T",
    students := [("s1", { id := "s1", name := "A", scores := [("A1", 50)] })],
    assignments := [("A1", { name := "A1", weight := 0, max_score := 100 })] }

/-- Concrete course with a zero-`max_score` assignment. -/
def zeroMaxCourse : Course :=
  { course_code := "c3", title := "T",
    students := [("s1", { id := "s1", name := "A", scores := [("Z", 50)] })],
    assignments := [("Z", { name := "Z", weight := 5, max_score := 0 })] }

/-- Concrete course with exactly one recorded score for `"HW1"`. -/
def oneScoreCourse : Course :=
  { course_code := "c4", title := "T",
    students := [("s1", { id := "s1", name := "A", scores := [("HW1", 10)] }),
                 ("s2", { id := "s2", name := "B", scores := [] })],
    assignments := [("HW1", { name := "HW1", weight := 1, max_score := 100 })] }

/-- Concrete course with one known student and no assignments, for the
narrow-format ingestion example. -/
def narrowCourse : Course :=
  { course_code := "c5", title := "T",
    students := [("s1", { id := "s1", name := "Alice", scores := [] })],
    assignments := [] }

/-- Concrete course with one known student, for the wide-format ingestion
example. -/
def wideCourse : Course :=
  { course_code := "c6", title := "T",
    students := [("s1", { id := "s1", name := "Alice", scores := [] })],
    assignments := [] }

/-- Concrete course with a raw score above `max_score` and nonnegative
weights. -/
def overMaxCourse : Course :=
  { course_code := "c8", title := "T",
    students := [("s1", { id := "s1", name := "A", scores := [("A1", 200)] })],
    assignments := [("A1", { name := "A1", weight := 1, max_score := 100 })] }

/-- Concrete course with nonnegative weights and in-range scores. -/
def inRangeCourse : Course :=
  { course_code := "c8w", title := "T",
    students := [("s1", { id := "s1", name := "A", scores := [("HW1", 18), ("Exam", 85)] })],
    assignments := [("HW1", { name := "HW1", weight := 0.3, max_score := 20 }),
                    ("Exam", { name := "Exam", weight := 0.7, max_score := 100 })] }

/-- Concrete course with an operator-configured assignment, for the
frame-effect claim about bulk ingestion. -/
def configuredCourse : Course :=
  { course_code := "c10", title := "T",
    students := [("s1", { id := "s1", name := "Alice", scores := [] })],
    assignments := [("HW1", { name := "HW1", weight := 0.5, max_score := 50 })] }

/-- Folding addition of `f` over a list is the sum of the mapped list. -/
theorem foldl_add_eq_sum {β : Type u} (f : β → ℚ) (l : List β) :
    ∀ x : ℚ, l.foldl (fun t a => t + f a) x = x + (l.map f).sum := by
  induction l with
  | nil => intro x; simp
  | cons a l ih => intro x; simp [ih, add_assoc]

/-- The accumulation loop of `calculate_weighted_scores` computes the sum of
the per-assignment contributions. -/
theorem studentTotal_eq_sum (c : Course) (st : Student) :
    studentTotal c st = (c.assignments.map (contrib (effTotalWeight c) st.scores)).sum := by
  simpa using foldl_add_eq_sum (contrib (effTotalWeight c) st.scores) c.assignments 0

/-- The divisor used by `calculate_weighted_scores` is never zero. -/
theorem effTotalWeight_ne_zero (c : Course) : effTotalWeight c ≠ 0 := by
  unfold effTotalWeight
  split
  · exact one_ne_zero
  · assumption

/-- Round-half-to-even never rounds above an integer upper bound. -/
theorem pyRoundHalfEven_le (x : ℚ) (n : ℤ) (h : x ≤ n) : pyRoundHalfEven x ≤ n := by
  have hfl : ⌊x⌋ ≤ n := by
    have := Int.floor_mono h
    simpa using this
  unfold pyRoundHalfEven
  split_ifs with h1 h2 h3
  · exact hfl
  · have hhalf : (⌊x⌋ : ℚ) + 1/2 ≤ x := by
      have := Int.floor_le x
      linarith [not_lt.mp h1]
    have hlt : (⌊x⌋ : ℚ) < (n : ℚ) := by linarith
    have : ⌊x⌋ < n := by exact_mod_cast hlt
    omega
  · exact hfl
  · have hhalf : (⌊x⌋ : ℚ) + 1/2 ≤ x := by
      linarith [not_lt.mp h1]
    have hlt : (⌊x⌋ : ℚ) < (n : ℚ) := by linarith
    have : ⌊x⌋ < n := by exact_mod_cast hlt
    omega

/-- Rounding to two decimals preserves the bound 100. -/
theorem pyRound2_le_100 (x : ℚ) (h : x ≤ 100) : pyRound2 x ≤ 100 := by
  have h1 : x * 100 ≤ ((10000 : ℤ) : ℚ) := by push_cast; linarith
  have h2 := pyRoundHalfEven_le (x * 100) 10000 h1
  unfold pyRound2
  rw [div_le_iff₀ (by norm_num : (0 : ℚ) < 100)]
  have : ((pyRoundHalfEven (x * 100) : ℤ) : ℚ) ≤ ((10000 : ℤ) : ℚ) := by exact_mod_cast h2
  push_cast at this ⊢
  linarith

/-- Rounding preserves zero. -/
theorem pyRound2_zero : pyRound2 0 = 0 := by
  norm_num [pyRound2, pyRoundHalfEven]

/-- C7 counterexample: 69.99 lies in the D band (`60 ≤ t < 70`, inclusive
lower bounds), so `numeric_to_letter` returns "D" for it, not the "C" the
claim's example row asserts. -/
theorem numeric_to_letter_6999_counterexample :
    numeric_to_letter 69.99 = "D" ∧ "D" ≠ "C" := by
  constructor
  · norm_num [numeric_to_letter]
  · decide

/-- C7 amended: `numeric_to_letter` maps a total `t` to A for `t ≥ 90`, B for
`80 ≤ t < 90`, C for `70 ≤ t < 80`, D for `60 ≤ t < 70`, and F otherwise
(inclusive lower bounds); in particular 90.0, 89.99, 80.0, 69.99, 60.0 and
59.99 map to A, B, B, D, D, F (69.99 falls in the D band). -/
theorem numeric_to_letter_bands :
    (∀ t : ℚ, 90 ≤ t → numeric_to_letter t = "A")
    ∧ (∀ t : ℚ, 80 ≤ t → t < 90 → numeric_to_letter t = "B")
    ∧ (∀ t : ℚ, 70 ≤ t → t < 80 → numeric_to_letter t = "C")
    ∧ (∀ t : ℚ, 60 ≤ t → t < 70 → numeric_to_letter t = "D")
    ∧ (∀ t : ℚ, t < 60 → numeric_to_letter t = "F")
    ∧ numeric_to_letter 90 = "A" ∧ numeric_to_letter 89.99 = "B"
    ∧ numeric_to_letter 80 = "B" ∧ numeric_to_letter 69.99 = "D"
    ∧ numeric_to_letter 60 = "D" ∧ numeric_to_letter 59.99 = "F" := by
  refine ⟨?_, ?_, ?_, ?_, ?_, ?_, ?_, ?_, ?_, ?_, ?_⟩
  · intro t h; unfold numeric_to_letter; rw [if_pos h]
  · intro t h h'; unfold numeric_to_letter
    rw [if_neg (by linarith), if_pos h]
  · intro t h h'; unfold numeric_to_letter
    rw [if_neg (by linarith), if_neg (by linarith), if_pos h]
  · intro t h h'; unfold numeric_to_letter
    rw [if_neg (by linarith), if_neg (by linarith), if_neg (by linarith), if_pos h]
  · intro t h; unfold numeric_to_letter
    rw [if_neg (by linarith), if_neg (by linarith), if_neg (by linarith),
      if_neg (by linarith)]
  all_goals norm_num [numeric_to_letter]

/-- Witness for the band clauses of `numeric_to_letter_bands` at a concrete
input. -/
theorem numeric_to_letter_bands_witness : numeric_to_letter 95 = "A" :=
  numeric_to_letter_bands.1 95 (by norm_num)

/-- C1: under a nonzero weight sum and nonzero max scores (the regime in
which the claim's formula is well defined), `calculate_weighted_scores`
returns, for every student in stored order (students with no recorded score
included, missing scores read as 0), the rounded value of
`Σ (score / max_score * 100) * (weight / total_weight)`. -/
theorem calculate_weighted_scores_formula (c : Course)
    (htw : totalWeight c ≠ 0) (hm : ∀ a ∈ c.assignments, a.2.max_score ≠ 0) :
    calculate_weighted_scores c = c.students.map (fun p => (p.1,
      pyRound2 ((c.assignments.map (fun a =>
        (dictLookup a.1 p.2.scores).getD 0 / a.2.max_score * 100
          * (a.2.weight / totalWeight c))).sum))) := by
  unfold calculate_weighted_scores
  refine List.map_congr_left (fun p _ => ?_)
  rw [studentTotal_eq_sum]
  have hetw : effTotalWeight c = totalWeight c := by
    unfold effTotalWeight
    rw [if_neg htw]
  have hmap : c.assignments.map (contrib (effTotalWeight c) p.2.scores)
      = c.assignments.map (fun a =>
        (dictLookup a.1 p.2.scores).getD 0 / a.2.max_score * 100
          * (a.2.weight / totalWeight c)) := by
    refine List.map_congr_left (fun a ha => ?_)
    unfold contrib
    rw [hetw, if_pos (hm a ha)]
  rw [hmap]

/-- Witness: on the spec's worked example the total is exactly 86.5. -/
theorem calculate_weighted_scores_formula_witness :
    calculate_weighted_scores demoC1 = [("s1", 86.5)] := by
  have h := calculate_weighted_scores_formula demoC1
    (by norm_num [totalWeight, demoC1])
    (by
      intro a ha
      simp only [demoC1, List.mem_cons, List.not_mem_nil, or_false] at ha
      rcases ha with rfl | rfl <;> norm_num)
  rw [h]
  simp [demoC1, totalWeight, dictLookup, pyRound2, pyRoundHalfEven]
  norm_num [Int.fract]

/-- C2 counterexample: a course whose weights sum to 0 without all being 0
(weights 1 and −1); the student's weighted total is 100, not 0. -/
theorem mixedWeight_counterexample :
    totalWeight mixedWeightCourse = 0
    ∧ calculate_weighted_scores mixedWeightCourse = [("s1", 100)]
    ∧ (100 : ℚ) ≠ 0 := by
  refine ⟨by norm_num [totalWeight, mixedWeightCourse], ?_, by norm_num⟩
  simp [calculate_weighted_scores, mixedWeightCourse, studentTotal, contrib,
    effTotalWeight, totalWeight, dictLookup, pyRound2, pyRoundHalfEven]
  norm_num [Int.fract]

/-- C2 amended: when the weight sum is 0 the divisor 1.0 is substituted, and
when moreover every assignment's weight is 0 (in particular the all-zero and
the empty catalog) every student's weighted total is exactly 0.0. -/
theorem zero_weights_all_zero (c : Course) (h : ∀ a ∈ c.assignments, a.2.weight = 0) :
    effTotalWeight c = 1
    ∧ calculate_weighted_scores c = c.students.map (fun p => (p.1, 0)) := by
  have htw : totalWeight c = 0 := by
    unfold totalWeight
    apply List.sum_eq_zero
    intro x hx
    simp only [List.mem_map] at hx
    obtain ⟨a, ha, rfl⟩ := hx
    exact h a ha
  refine ⟨by simp [effTotalWeight, htw], ?_⟩
  unfold calculate_weighted_scores
  refine List.map_congr_left (fun p _ => ?_)
  rw [studentTotal_eq_sum]
  have hz : (c.assignments.map (contrib (effTotalWeight c) p.2.scores)).sum = 0 := by
    apply List.sum_eq_zero
    intro x hx
    simp only [List.mem_map] at hx
    obtain ⟨a, ha, rfl⟩ := hx
    unfold contrib
    rw [h a ha]
    simp
  rw [hz, pyRound2_zero]

/-- Witness: on a one-assignment zero-weight catalog with a recorded score of
50, the total is 0. -/
theorem zero_weights_all_zero_witness :
    calculate_weighted_scores zeroWeightCourse = [("s1", 0)] := by
  have h := (zero_weights_all_zero zeroWeightCourse
    (by
      intro a ha
      simp only [zeroWeightCourse, List.mem_cons, List.not_mem_nil, or_false] at ha
      subst ha
      norm_num)).2
  rw [h]
  simp [zeroWeightCourse]

/-- C3: the weighted total is the sum of per-assignment contributions; an
assignment with `max_score = 0` contributes exactly 0 whatever the recorded
score and weight (the division guard), and the total-weight divisor is never
zero (the substitution guard), so no division by zero occurs. -/
theorem zero_max_guard (c : Course) :
    calculate_weighted_scores c = c.students.map (fun p =>
      (p.1, pyRound2 ((c.assignments.map (contrib (effTotalWeight c) p.2.scores)).sum)))
    ∧ effTotalWeight c ≠ 0
    ∧ ∀ a ∈ c.assignments, a.2.max_score = 0 →
        ∀ scores : List (String × ℚ), contrib (effTotalWeight c) scores a = 0 := by
  refine ⟨?_, effTotalWeight_ne_zero c, ?_⟩
  · unfold calculate_weighted_scores
    refine List.map_congr_left (fun p _ => ?_)
    rw [studentTotal_eq_sum]
  · intro a _ hz scores
    unfold contrib
    rw [if_neg (not_not_intro hz)]
    exact zero_mul _

/-- Witness: a weight-5, max-score-0 assignment contributes 0 even to a
student with a recorded score of 50. -/
theorem zero_max_guard_witness :
    contrib (effTotalWeight zeroMaxCourse) [("Z", 50)]
      ("Z", { name := "Z", weight := 5, max_score := 0 }) = 0
    ∧ effTotalWeight zeroMaxCourse ≠ 0 := by
  refine ⟨(zero_max_guard zeroMaxCourse).2.2 _ ?_ rfl _, (zero_max_guard zeroMaxCourse).2.1⟩
  simp [zeroMaxCourse]

/-- C8 counterexample: with the single nonnegative weight 1 and a recorded
score of 200 on a max-score-100 assignment, the weighted total is 200,
exceeding 100 — totals are not bounded by 100 for arbitrary recorded
scores. -/
theorem overMax_counterexample :
    overMaxCourse.assignments =
      [("A1", { name := "A1", weight := 1, max_score := 100 })]
    ∧ (0 : ℚ) ≤ 1
    ∧ calculate_weighted_scores overMaxCourse = [("s1", 200)]
    ∧ ¬((200 : ℚ) ≤ 100) := by
  refine ⟨rfl, by norm_num, ?_, by norm_num⟩
  simp [calculate_weighted_scores, overMaxCourse, studentTotal, contrib,
    effTotalWeight, totalWeight, dictLookup, pyRound2, pyRoundHalfEven]
  norm_num [Int.fract]

/-- C8 amended: when every weight is nonnegative and every recorded (or
defaulted) score lies in `[0, max_score]`, every weighted total returned by
`calculate_weighted_scores` is at most 100. -/
theorem weighted_total_le_100 (c : Course)
    (hw : ∀ a ∈ c.assignments, 0 ≤ a.2.weight)
    (hs : ∀ a ∈ c.assignments, ∀ p ∈ c.students,
      0 ≤ (dictLookup a.1 p.2.scores).getD 0
        ∧ (dictLookup a.1 p.2.scores).getD 0 ≤ a.2.max_score) :
    ∀ r ∈ calculate_weighted_scores c, r.2 ≤ 100 := by
  intro r hr
  unfold calculate_weighted_scores at hr
  simp only [List.mem_map] at hr
  obtain ⟨p, hp, rfl⟩ := hr
  apply pyRound2_le_100
  rw [studentTotal_eq_sum]
  have htw0 : 0 ≤ totalWeight c := by
    apply List.sum_nonneg
    intro x hx
    simp only [List.mem_map] at hx
    obtain ⟨a, ha, rfl⟩ := hx
    exact hw a ha
  have hetw : 0 < effTotalWeight c := by
    unfold effTotalWeight
    split
    · norm_num
    · exact lt_of_le_of_ne htw0 (Ne.symm (by assumption))
  have key : ∀ a ∈ c.assignments,
      contrib (effTotalWeight c) p.2.scores a ≤ 100 / effTotalWeight c * a.2.weight := by
    intro a ha
    obtain ⟨hs0, hsm⟩ := hs a ha p hp
    have hwa := hw a ha
    unfold contrib
    have hrhs : 100 / effTotalWeight c * a.2.weight
        = 100 * (a.2.weight / effTotalWeight c) := by ring
    rw [hrhs]
    by_cases hmz : a.2.max_score = 0
    · rw [if_neg (not_not_intro hmz), zero_mul]
      positivity
    · rw [if_pos hmz]
      have hmax : 0 < a.2.max_score := lt_of_le_of_ne (le_trans hs0 hsm) (Ne.symm hmz)
      have hperc : (dictLookup a.1 p.2.scores).getD 0 / a.2.max_score * 100 ≤ 100 := by
        have : (dictLookup a.1 p.2.scores).getD 0 / a.2.max_score ≤ 1 :=
          (div_le_one hmax).mpr hsm
        linarith
      exact mul_le_mul_of_nonneg_right hperc (by positivity)
  calc (c.assignments.map (contrib (effTotalWeight c) p.2.scores)).sum
      ≤ (c.assignments.map (fun a => 100 / effTotalWeight c * a.2.weight)).sum :=
        List.sum_le_sum key
    _ = 100 / effTotalWeight c * totalWeight c := by
        rw [totalWeight, List.sum_map_mul_left]
    _ ≤ 100 := by
        unfold effTotalWeight
        split
        · simp_all
        · rw [div_mul_cancel₀]
          assumption

/-- Lookup after inserting the same key. -/
theorem dictLookup_insert_self (k : String) (v : α) (m : List (String × α)) :
    dictLookup k (dictInsert k v m) = some v := by
  induction m with
  | nil => simp [dictInsert, dictLookup]
  | cons a rest ih =>
    obtain ⟨k', v'⟩ := a
    by_cases h : k' = k
    · simp [dictInsert, dictLookup, h]
    · simp [dictInsert, dictLookup, h, ih]

/-- Lookup after inserting a different key. -/
theorem dictLookup_insert_other (k k' : String) (v : α) (m : List (String × α))
    (h : k ≠ k') : dictLookup k (dictInsert k' v m) = dictLookup k m := by
  induction m with
  | nil => simp [dictInsert, dictLookup, Ne.symm h]
  | cons a rest ih =>
    obtain ⟨k'', v''⟩ := a
    by_cases h2 : k'' = k'
    · subst h2
      simp [dictInsert, dictLookup, Ne.symm h]
    · by_cases h3 : k'' = k
      · simp [dictInsert, dictLookup, h2, h3, h]
      · simp [dictInsert, dictLookup, h2, h3, ih]

/-- Lookup of an updated key. -/
theorem dictLookup_updAt_self (k : String) (f : α → α) (m : List (String × α)) :
    dictLookup k (updAt k f m) = (dictLookup k m).map f := by
  induction m with
  | nil => simp [updAt, dictLookup]
  | cons a rest ih =>
    obtain ⟨k', v'⟩ := a
    by_cases h : k' = k
    · simp [updAt, dictLookup, h]
    · simp [updAt, dictLookup, h, ih]

/-- Lookup of a key different from the updated one. -/
theorem dictLookup_updAt_other (k k' : String) (f : α → α) (m : List (String × α))
    (h : k ≠ k') : dictLookup k (updAt k' f m) = dictLookup k m := by
  induction m with
  | nil => simp [updAt, dictLookup]
  | cons a rest ih =>
    obtain ⟨k'', v''⟩ := a
    by_cases h2 : k'' = k'
    · subst h2
      simp [updAt, dictLookup, Ne.symm h]
    · by_cases h3 : k'' = k
      · simp [updAt, dictLookup, h2, h3, h]
      · simp [updAt, dictLookup, h2, h3, ih]

/-- Auto-registration preserves the record of any already-present key. -/
theorem dictLookup_ensD_of_some (m : List (String × Assignment)) (an an' : String)
    (a : Assignment) (h : dictLookup an m = some a) :
    dictLookup an (ensD m an') = some a := by
  unfold ensD
  split
  · exact h
  · by_cases he : an = an'
    · subst he
      simp_all
    · rw [dictLookup_insert_other an an' _ m he]
      exact h

/-- A fold preserves any per-step invariant. -/
theorem foldl_invariant {σ β : Type u} (P : σ → Prop) (step : σ → β → σ)
    (h : ∀ s b, P s → P (step s b)) :
    ∀ (l : List β) (s : σ), P s → P (l.foldl step s) := by
  intro l
  induction l with
  | nil => intro s hs; exact hs
  | cons b l ih => intro s hs; exact ih (step s b) (h s b hs)

/-- Nonnegativity of the unbiased sample variance for at least two values. -/
theorem sampleVar_nonneg (l : List ℚ) (h : 2 ≤ l.length) : 0 ≤ sampleVar l := by
  unfold sampleVar
  apply div_nonneg
  · apply List.sum_nonneg
    intro x hx
    simp only [List.mem_map] at hx
    obtain ⟨a, _, rfl⟩ := hx
    exact sq_nonneg _
  · have : (2 : ℚ) ≤ (l.length : ℚ) := by exact_mod_cast h
    linarith

/-- The executable comparison of `detect_outliers` decides exactly
`d > t * sqrt var` (the float comparison of the source, in exact
arithmetic). -/
theorem outlierCheck_iff (d t v : ℚ) (hd : 0 ≤ d) (hv : 0 ≤ v) :
    outlierCheck d t v = true ↔ (t : ℝ) * Real.sqrt (v : ℝ) < (d : ℝ) := by
  unfold outlierCheck
  by_cases ht : 0 ≤ t
  · rw [if_pos ht, decide_eq_true_eq]
    have hvr : (0 : ℝ) ≤ (v : ℝ) := by exact_mod_cast hv
    have hdr : (0 : ℝ) ≤ (d : ℝ) := by exact_mod_cast hd
    have htr : (0 : ℝ) ≤ (t : ℝ) := by exact_mod_cast ht
    have hsq : ((t : ℝ) * Real.sqrt (v : ℝ)) ^ 2 = (t : ℝ) ^ 2 * (v : ℝ) := by
      rw [mul_pow, Real.sq_sqrt hvr]
    constructor
    · intro hlt
      have hlt' : (t : ℝ) ^ 2 * (v : ℝ) < (d : ℝ) ^ 2 := by exact_mod_cast hlt
      by_contra hcon
      push_neg at hcon
      have h2 : (d : ℝ) ^ 2 ≤ ((t : ℝ) * Real.sqrt (v : ℝ)) ^ 2 :=
        pow_le_pow_left₀ hdr hcon 2
      rw [hsq] at h2
      linarith
    · intro hlt
      have h1 : (0 : ℝ) ≤ (t : ℝ) * Real.sqrt (v : ℝ) :=
        mul_nonneg htr (Real.sqrt_nonneg _)
      have h2 : ((t : ℝ) * Real.sqrt (v : ℝ)) ^ 2 < (d : ℝ) ^ 2 :=
        pow_lt_pow_left₀ hlt h1 (by norm_num)
      rw [hsq] at h2
      exact_mod_cast h2
  · rw [if_neg ht]
    push_neg at ht
    rcases eq_or_lt_of_le hv with hv0 | hv0
    · obtain rfl := hv0.symm
      simp only [lt_self_iff_false, decide_False, Bool.false_or, decide_eq_true_eq,
        Rat.cast_zero, Real.sqrt_zero, mul_zero]
      exact ⟨fun h => by exact_mod_cast h, fun h => by exact_mod_cast h⟩
    · have hs : 0 < Real.sqrt (v : ℝ) := Real.sqrt_pos.mpr (by exact_mod_cast hv0)
      have hneg : (t : ℝ) * Real.sqrt (v : ℝ) < 0 :=
        mul_neg_of_neg_of_pos (by exact_mod_cast ht) hs
      have hrhs : (t : ℝ) * Real.sqrt (v : ℝ) < (d : ℝ) :=
        lt_of_lt_of_le hneg (by exact_mod_cast hd)
      simp [hv0, hrhs]

/-- C4: `detect_outliers` returns a sublist of the recorded `(id, score)`
pairs in stored order; it is empty whenever fewer than two scores are
recorded or the sample stdev is 0, and otherwise contains exactly the pairs
whose absolute deviation from the sample mean strictly exceeds
`threshold * stdev`, with stdev the square root of the unbiased (N-1)
variance. -/
theorem detect_outliers_spec (c : Course) (an : String) (t : ℚ) :
    (detect_outliers c an t).Sublist (scoresFor c an)
    ∧ ((scoresFor c an).length < 2 → detect_outliers c an t = [])
    ∧ (Real.sqrt (sampleVar ((scoresFor c an).map Prod.snd) : ℝ) = 0 →
        detect_outliers c an t = [])
    ∧ (∀ sid : String, ∀ v : ℚ, (sid, v) ∈ detect_outliers c an t ↔
        ((sid, v) ∈ scoresFor c an ∧ 2 ≤ (scoresFor c an).length
          ∧ Real.sqrt (sampleVar ((scoresFor c an).map Prod.snd) : ℝ) ≠ 0
          ∧ (t : ℝ) * Real.sqrt (sampleVar ((scoresFor c an).map Prod.snd) : ℝ)
              < |(v : ℝ) - ((mean ((scoresFor c an).map Prod.snd) : ℚ) : ℝ)|)) := by
  by_cases hnil : scoresFor c an = []
  · have hdet : detect_outliers c an t = [] := by
      unfold detect_outliers
      simp [hnil]
    rw [hdet]
    refine ⟨List.nil_sublist _, fun _ => rfl, fun _ => rfl, fun sid v => ?_⟩
    simp [hnil]
  · by_cases hlen : (scoresFor c an).length < 2
    · have hdet : detect_outliers c an t = [] := by
        unfold detect_outliers
        simp [hnil, hlen]
      rw [hdet]
      refine ⟨List.nil_sublist _, fun _ => rfl, fun _ => rfl, fun sid v => ?_⟩
      simp only [List.not_mem_nil, false_iff, not_and]
      intro _ h2
      omega
    · have h2 : 2 ≤ (scoresFor c an).length := by omega
      have hvlen : 2 ≤ ((scoresFor c an).map Prod.snd).length := by
        rw [List.length_map]; exact h2
      have hvar0 : 0 ≤ sampleVar ((scoresFor c an).map Prod.snd) :=
        sampleVar_nonneg _ hvlen
      have hvar0' : (0 : ℝ) ≤ (sampleVar ((scoresFor c an).map Prod.snd) : ℝ) := by
        exact_mod_cast hvar0
      have hdet : detect_outliers c an t = (scoresFor c an).filter (fun p =>
          !(decide (sampleVar ((scoresFor c an).map Prod.snd) = 0))
            && outlierCheck |p.2 - mean ((scoresFor c an).map Prod.snd)| t
                (sampleVar ((scoresFor c an).map Prod.snd))) := by
        unfold detect_outliers
        simp [hnil, hlen]
      refine ⟨?_, fun h => absurd h hlen, ?_, ?_⟩
      · rw [hdet]; exact List.filter_sublist _
      · intro hsq
        have hveq : sampleVar ((scoresFor c an).map Prod.snd) = 0 := by
          have := (Real.sqrt_eq_zero hvar0').mp hsq
          exact_mod_cast this
        rw [hdet]
        simp [hveq]
      · intro sid v
        rw [hdet, List.mem_filter]
        constructor
        · rintro ⟨hmem, hpred⟩
          rw [Bool.and_eq_true, Bool.not_eq_true', decide_eq_false_iff_not] at hpred
          obtain ⟨hvne, hchk⟩ := hpred
          have hbr := (outlierCheck_iff _ t _ (abs_nonneg _) hvar0).mp hchk
          refine ⟨hmem, h2, ?_, ?_⟩
          · rw [Ne, Real.sqrt_eq_zero hvar0']
            exact_mod_cast hvne
          · calc (t : ℝ) * Real.sqrt (sampleVar ((scoresFor c an).map Prod.snd) : ℝ)
                < ((|v - mean ((scoresFor c an).map Prod.snd)| : ℚ) : ℝ) := hbr
              _ = |(v : ℝ) - ((mean ((scoresFor c an).map Prod.snd) : ℚ) : ℝ)| := by
                  push_cast
                  rfl
        · rintro ⟨hmem, _, hsne, hlt⟩
          refine ⟨hmem, ?_⟩
          rw [Bool.and_eq_true, Bool.not_eq_true', decide_eq_false_iff_not]
          have hvne : sampleVar ((scoresFor c an).map Prod.snd) ≠ 0 := by
            intro hc
            apply hsne
            rw [hc]
            exact_mod_cast Real.sqrt_zero
          refine ⟨hvne, ?_⟩
          apply (outlierCheck_iff _ t _ (abs_nonneg _) hvar0).mpr
          calc (t : ℝ) * Real.sqrt (sampleVar ((scoresFor c an).map Prod.snd) : ℝ)
              < |(v : ℝ) - ((mean ((scoresFor c an).map Prod.snd) : ℚ) : ℝ)| := hlt
            _ = ((|v - mean ((scoresFor c an).map Prod.snd)| : ℚ) : ℝ) := by
                push_cast
                rfl

/-- Witness: with a single recorded score `detect_outliers` returns `[]`. -/
theorem detect_outliers_spec_witness :
    detect_outliers oneScoreCourse "HW1" 2 = [] :=
  (detect_outliers_spec oneScoreCourse "HW1" 2).2.1
    (by simp [scoresFor, oneScoreCourse, dictLookup])

/-- A wide-format cell with no extractable value leaves the course untouched;
folding only such cells is the identity. -/
theorem foldl_wideCell_id (sid : String) (row : List String) (l : List (ℕ × String))
    (h : ∀ x ∈ l, cellVal row (x.1 + 1) = none) :
    ∀ c : Course, l.foldl (wideCell sid row) c = c := by
  induction l with
  | nil => intro c; rfl
  | cons x l ih =>
    intro c
    have hx : wideCell sid row c x = c := by
      unfold wideCell
      rw [h x (List.mem_cons_self x l)]
    rw [List.foldl_cons, hx]
    exact ih (fun y hy => h y (List.mem_cons_of_mem x hy)) c

/-- C5: in narrow-format ingestion each row with fewer than 3 fields, a
non-numeric score, or an unknown student id adds exactly one to `failed` and
leaves the course state untouched; any other row records the score for the
student, auto-registers the assignment (weight 0, max score 100) exactly when
it is absent, and adds one to `processed`; narrow processing is what
`bulk_import_grades_csv` runs when the first cell is not "id"; on the 3-row
example (good row, unknown student, non-numeric score) the result is
`(processed, failed) = (1, 2)` and the batch is not aborted. -/
theorem narrow_ingestion_spec :
    (∀ (c : Course) (p f : ℕ) (row : List String), row.length < 3 →
        narrowRow (c, p, f) row = (c, p, f + 1))
    ∧ (∀ (c : Course) (p f : ℕ) (row : List String), 3 ≤ row.length →
        pyFloat? (pyStrip (row.getD 2 "")) = none →
        narrowRow (c, p, f) row = (c, p, f + 1))
    ∧ (∀ (c : Course) (p f : ℕ) (row : List String) (score : ℚ), 3 ≤ row.length →
        pyFloat? (pyStrip (row.getD 2 "")) = some score →
        dictLookup (pyStrip (row.getD 0 "")) c.students = none →
        narrowRow (c, p, f) row = (c, p, f + 1))
    ∧ (∀ (c : Course) (p f : ℕ) (row : List String) (score : ℚ) (st : Student),
        3 ≤ row.length →
        pyFloat? (pyStrip (row.getD 2 "")) = some score →
        dictLookup (pyStrip (row.getD 0 "")) c.students = some st →
        ∃ c' : Course, narrowRow (c, p, f) row = (c', p + 1, f)
          ∧ dictLookup (pyStrip (row.getD 0 "")) c'.students
              = some { st with
                  scores := dictInsert (pyStrip (row.getD 1 "")) score st.scores }
          ∧ (dictLookup (pyStrip (row.getD 1 "")) c.assignments = none →
              dictLookup (pyStrip (row.getD 1 "")) c'.assignments
                = some { name := pyStrip (row.getD 1 ""), weight := 0, max_score := 100 })
          ∧ (∀ x : String, ∀ a : Assignment, dictLookup x c.assignments = some a →
              dictLookup x c'.assignments = some a))
    ∧ (∀ (c : Course) (first : List String) (rest : List (List String)),
        isWideHeader first = false →
        bulk_import_grades_csv c (first :: rest) = (first :: rest).foldl narrowRow (c, 0, 0))
    ∧ bulk_import_grades_csv narrowCourse
        [["s1", "HW1", "85"], ["zz", "HW1", "50"], ["s1", "HW1", "oops"]]
        = ({ narrowCourse with
              students := [("s1", { id := "s1", name := "Alice", scores := [("HW1", 85)] })],
              assignments := [("HW1", { name := "HW1", weight := 0, max_score := 100 })] },
           1, 2) := by
  refine ⟨?_, ?_, ?_, ?_, ?_, ?_⟩
  · intro c p f row h
    unfold narrowRow
    rw [if_pos h]
  · intro c p f row h hpf
    unfold narrowRow
    rw [if_neg (by omega), hpf]
  · intro c p f row score h hpf hsid
    unfold narrowRow
    rw [if_neg (by omega), hpf]
    simp only [List.getD_eq_getElem?_getD] at hsid
    simp [known, hsid]
  · intro c p f row score st h hpf hsid
    refine ⟨recordScore (ensureAssignment c (pyStrip (row.getD 1 "")))
      (pyStrip (row.getD 0 "")) (pyStrip (row.getD 1 "")) score, ?_, ?_, ?_, ?_⟩
    · unfold narrowRow
      rw [if_neg (by omega), hpf]
      simp only [List.getD_eq_getElem?_getD] at hsid
      simp [known, hsid]
    · show dictLookup _ (applyRec (ensureAssignment c _).students _) = _
      unfold ensureAssignment applyRec
      rw [dictLookup_updAt_self, hsid]
      rfl
    · intro habs
      show dictLookup _ (ensD c.assignments _) = _
      unfold ensD
      rw [if_neg (by simp only [List.getD_eq_getElem?_getD] at habs; simp [habs])]
      exact dictLookup_insert_self _ _ _
    · intro x a hx
      exact dictLookup_ensD_of_some c.assignments x _ a hx
  · intro c first rest hw
    show (if isWideHeader first then
        rest.foldl (wideRow ((first.map pyStrip).drop 1)) (c, 0, 0)
      else (first :: rest).foldl narrowRow (c, 0, 0)) = (first :: rest).foldl narrowRow (c, 0, 0)
    rw [hw]
    simp
  · simp [bulk_import_grades_csv, isWideHeader, narrowRow, known, recordScore,
      ensureAssignment, ensD, applyRec, updAt, dictInsert, dictLookup, narrowCourse,
      pyStrip, pySpace, pyLower, pyLowerChar, pyFloat?, digitsToNat]

/-- Witness: a two-field narrow row fails without touching the course. -/
theorem narrow_ingestion_spec_witness :
    narrowRow (narrowCourse, 0, 0) ["s1", "HW1"] = (narrowCourse, 0, 1) :=
  narrow_ingestion_spec.1 narrowCourse 0 0 ["s1", "HW1"] (by simp)

/-- C6: in wide-format ingestion a nonempty data row with an unknown student
id adds one to `failed` and applies nothing; a missing, blank, or non-numeric
cell extracts no value, and any cell with no extractable value leaves the
course untouched; an id-matched row adds one to `processed` exactly once,
and when none of its cells have extractable values the course is unchanged
but the row still counts as processed. -/
theorem wide_ingestion_spec :
    (∀ (c : Course) (p f : ℕ) (anames : List String) (row : List String),
        row ≠ [] → dictLookup (pyStrip (row.getD 0 "")) c.students = none →
        wideRow anames (c, p, f) row = (c, p, f + 1))
    ∧ (∀ (sid : String) (row : List String) (c : Course) (ian : ℕ × String),
        cellVal row (ian.1 + 1) = none → wideCell sid row c ian = c)
    ∧ (∀ (row : List String) (i : ℕ), row.get? i = none → cellVal row i = none)
    ∧ (∀ (row : List String) (i : ℕ) (cell : String), row.get? i = some cell →
        pyStrip cell = "" → cellVal row i = none)
    ∧ (∀ (row : List String) (i : ℕ) (cell : String), row.get? i = some cell →
        pyStrip cell ≠ "" → pyFloat? (pyStrip cell) = none → cellVal row i = none)
    ∧ (∀ (c : Course) (p f : ℕ) (anames : List String) (row : List String),
        row ≠ [] → (dictLookup (pyStrip (row.getD 0 "")) c.students).isSome →
        ∃ c' : Course, wideRow anames (c, p, f) row = (c', p + 1, f))
    ∧ (∀ (c : Course) (p f : ℕ) (anames : List String) (row : List String),
        row ≠ [] → (dictLookup (pyStrip (row.getD 0 "")) c.students).isSome →
        (∀ x ∈ anames.enum, cellVal row (x.1 + 1) = none) →
        wideRow anames (c, p, f) row = (c, p + 1, f)) := by
  refine ⟨?_, ?_, ?_, ?_, ?_, ?_, ?_⟩
  · intro c p f anames row hne hsid
    unfold wideRow
    rw [if_neg hne]
    simp only [List.getD_eq_getElem?_getD] at hsid
    simp [known, hsid]
  · intro sid row c ian h
    unfold wideCell
    rw [h]
  · intro row i h
    unfold cellVal
    rw [h]
  · intro row i cell h hblank
    unfold cellVal
    rw [h]
    simp [hblank]
  · intro row i cell h hblank hpf
    unfold cellVal
    rw [h]
    simp [hblank, hpf]
  · intro c p f anames row hne hsid
    refine ⟨anames.enum.foldl (wideCell (pyStrip (row.getD 0 "")) row) c, ?_⟩
    unfold wideRow
    rw [if_neg hne]
    simp only [List.getD_eq_getElem?_getD] at hsid
    simp [known, hsid]
  · intro c p f anames row hne hsid hcells
    unfold wideRow
    rw [if_neg hne]
    simp only [List.getD_eq_getElem?_getD] at hsid
    simp [known, hsid, foldl_wideCell_id _ _ _ hcells]

/-- Witness: an unknown-id wide row is counted as failed and changes
nothing. -/
theorem wide_ingestion_spec_witness :
    wideRow ["HW1"] (wideCourse, 0, 0) ["zz", "50"] = (wideCourse, 0, 1) :=
  wide_ingestion_spec.1 wideCourse 0 0 ["HW1"] ["zz", "50"] (by simp)
    (by simp [dictLookup, wideCourse, pyStrip, pySpace])

/-- C10: bulk ingestion, in either format, never changes the stored record
(weight and max score) of an assignment already present in the catalog:
auto-registration only fires on absent names. -/
theorem bulk_preserves_configured (c : Course) (rows : List (List String))
    (an : String) (a : Assignment) (h : dictLookup an c.assignments = some a) :
    dictLookup an (bulk_import_grades_csv c rows).1.assignments = some a := by
  have hcell : ∀ (sid : String) (row : List String) (s : Course) (ian : ℕ × String),
      dictLookup an s.assignments = some a →
      dictLookup an (wideCell sid row s ian).assignments = some a := by
    intro sid row s ian hs
    unfold wideCell
    match cellVal row (ian.1 + 1) with
    | none => exact hs
    | some score => exact dictLookup_ensD_of_some s.assignments an ian.2 a hs
  have hwide : ∀ (anames : List String) (acc : Course × ℕ × ℕ) (row : List String),
      dictLookup an acc.1.assignments = some a →
      dictLookup an (wideRow anames acc row).1.assignments = some a := by
    intro anames acc row hs
    unfold wideRow
    dsimp only
    split
    · exact hs
    · split
      · exact foldl_invariant (fun s => dictLookup an s.assignments = some a)
          (wideCell _ row) (fun s b hb => hcell _ row s b hb) anames.enum acc.1 hs
      · exact hs
  have hnarrow : ∀ (acc : Course × ℕ × ℕ) (row : List String),
      dictLookup an acc.1.assignments = some a →
      dictLookup an (narrowRow acc row).1.assignments = some a := by
    intro acc row hs
    unfold narrowRow
    dsimp only
    split
    · exact hs
    · split
      · exact hs
      · split
        · exact dictLookup_ensD_of_some acc.1.assignments an _ a hs
        · exact hs
  match rows with
  | [] => exact h
  | first :: rest =>
    show dictLookup an ((if isWideHeader first then
        rest.foldl (wideRow ((first.map pyStrip).drop 1)) (c, 0, 0)
      else (first :: rest).foldl narrowRow (c, 0, 0))).1.assignments = some a
    by_cases hwb : isWideHeader first = true
    · rw [if_pos hwb]
      exact foldl_invariant (fun acc : Course × ℕ × ℕ =>
        dictLookup an acc.1.assignments = some a) _ (hwide _) rest (c, 0, 0) h
    · rw [if_neg hwb]
      exact foldl_invariant (fun acc : Course × ℕ × ℕ =>
        dictLookup an acc.1.assignments = some a) _ hnarrow (first :: rest) (c, 0, 0) h

/-- Witness: re-ingesting a score for an operator-configured assignment
(weight 0.5, max score 50) leaves its record unchanged. -/
theorem bulk_preserves_configured_witness :
    dictLookup "HW1" (bulk_import_grades_csv configuredCourse
      [["s1", "HW1", "40"]]).1.assignments
      = some { name := "HW1", weight := 0.5, max_score := 50 } :=
  bulk_preserves_configured configuredCourse [["s1", "HW1", "40"]] "HW1"
    { name := "HW1", weight := 0.5, max_score := 50 }
    (by simp [configuredCourse, dictLookup])

/-- Witness for `weighted_total_le_100` on a concrete in-range course. -/
theorem weighted_total_le_100_witness : (86.5 : ℚ) ≤ 100 := by
  have hmem : ("s1", (86.5 : ℚ)) ∈ calculate_weighted_scores inRangeCourse := by
    simp [calculate_weighted_scores, inRangeCourse, studentTotal, contrib,
      effTotalWeight, totalWeight, dictLookup, pyRound2, pyRoundHalfEven]
    norm_num [Int.fract]
  have h := weighted_total_le_100 inRangeCourse
    (by
      intro a ha
      simp only [inRangeCourse, List.mem_cons, List.not_mem_nil, or_false] at ha
      rcases ha with rfl | rfl <;> norm_num)
    (by
      intro a ha q hq
      simp only [inRangeCourse, List.mem_cons, List.not_mem_nil, or_false] at ha hq
      subst hq
      rcases ha with rfl | rfl <;> simp [dictLookup] <;> norm_num)
    ("s1", 86.5) hmem
  simpa using h

/-- Writing a key twice keeps only the last value. -/
theorem dictInsert_overwrite (k : String) (v v' : α) (m : List (String × α)) :
    dictInsert k v (dictInsert k v' m) = dictInsert k v m := by
  induction m with
  | nil => simp [dictInsert]
  | cons a rest ih =>
    obtain ⟨k', w⟩ := a
    by_cases h : k' = k
    · simp [dictInsert, h]
    · simp [dictInsert, h, ih]

/-- Writing the value a key already holds is a no-op. -/
theorem dictInsert_absorb (k : String) (v : α) (m : List (String × α))
    (h : dictLookup k m = some v) : dictInsert k v m = m := by
  induction m with
  | nil => simp [dictLookup] at h
  | cons a rest ih =>
    obtain ⟨k', w⟩ := a
    by_cases hk : k' = k
    · subst hk
      simp [dictLookup] at h
      simp [dictInsert, h]
    · simp [dictLookup, hk] at h
      simp [dictInsert, hk, ih h]

/-- Writes to two distinct keys commute when the first key is present
(an in-place update commutes with anything at another key). -/
theorem dictInsert_comm_present (k k' : String) (v v' : α) (m : List (String × α))
    (hp : (dictLookup k m).isSome) (hne : k ≠ k') :
    dictInsert k' v' (dictInsert k v m) = dictInsert k v (dictInsert k' v' m) := by
  induction m with
  | nil => simp [dictLookup] at hp
  | cons a rest ih =>
    obtain ⟨k'', w⟩ := a
    by_cases h1 : k'' = k
    · subst h1
      simp [dictInsert, hne, Ne.symm hne]
    · by_cases h2 : k'' = k'
      · subst h2
        simp [dictInsert, h1, Ne.symm h1]
      · simp [dictLookup, h1] at hp
        simp [dictInsert, h1, h2, ih hp]

/-- Two updates of the same key compose. -/
theorem updAt_updAt_same (k : String) (f g : α → α) (m : List (String × α)) :
    updAt k f (updAt k g m) = updAt k (fun x => f (g x)) m := by
  induction m with
  | nil => simp [updAt]
  | cons a rest ih =>
    obtain ⟨k', v⟩ := a
    by_cases h : k' = k
    · simp [updAt, h]
    · simp [updAt, h, ih]

/-- Updates of distinct keys commute. -/
theorem updAt_comm (k k' : String) (f g : α → α) (m : List (String × α))
    (hne : k ≠ k') : updAt k f (updAt k' g m) = updAt k' g (updAt k f m) := by
  induction m with
  | nil => simp [updAt]
  | cons a rest ih =>
    obtain ⟨k'', v⟩ := a
    by_cases h1 : k'' = k
    · subst h1
      simp [updAt, hne]
    · by_cases h2 : k'' = k'
      · subst h2
        simp [updAt, h1, Ne.symm hne]
      · simp [updAt, h1, h2, ih]

/-- Updating an absent key is a no-op. -/
theorem updAt_absent (k : String) (f : α → α) (m : List (String × α))
    (h : dictLookup k m = none) : updAt k f m = m := by
  induction m with
  | nil => simp [updAt]
  | cons a rest ih =>
    obtain ⟨k', v⟩ := a
    by_cases hk : k' = k
    · simp [dictLookup, hk] at h
    · simp [dictLookup, hk] at h
      simp [updAt, hk, ih h]

/-- Two updates of a key agreeing on the stored value give equal lists. -/
theorem updAt_congr_lookup (k : String) (f g : α → α) (m : List (String × α))
    (h : ∀ v, dictLookup k m = some v → f v = g v) : updAt k f m = updAt k g m := by
  induction m with
  | nil => simp [updAt]
  | cons a rest ih =>
    obtain ⟨k', v⟩ := a
    by_cases hk : k' = k
    · subst hk
      have := h v (by simp [dictLookup])
      simp [updAt, this]
    · have hrest : ∀ w, dictLookup k rest = some w → f w = g w := by
        intro w hw
        exact h w (by simp [dictLookup, hk, hw])
      simp [updAt, hk, ih hrest]

/-- An update fixing the stored value is a no-op. -/
theorem updAt_id_lookup (k : String) (f : α → α) (m : List (String × α))
    (h : ∀ v, dictLookup k m = some v → f v = v) : updAt k f m = m := by
  induction m with
  | nil => simp [updAt]
  | cons a rest ih =>
    obtain ⟨k', v⟩ := a
    by_cases hk : k' = k
    · subst hk
      have := h v (by simp [dictLookup])
      simp [updAt, this]
    · have hrest : ∀ w, dictLookup k rest = some w → f w = w := by
        intro w hw
        exact h w (by simp [dictLookup, hk, hw])
      simp [updAt, hk, ih hrest]

/-- Updates never change which keys are present. -/
theorem updAt_lookup_isSome (k k' : String) (f : α → α) (m : List (String × α)) :
    (dictLookup k (updAt k' f m)).isSome = (dictLookup k m).isSome := by
  by_cases h : k = k'
  · subst h
    rw [dictLookup_updAt_self]
    cases dictLookup k m <;> rfl
  · rw [dictLookup_updAt_other k k' f m h]

/-- Inserting any key preserves presence of every key. -/
theorem dictInsert_lookup_isSome_mono (k k' : String) (v : α) (m : List (String × α))
    (h : (dictLookup k m).isSome) : (dictLookup k (dictInsert k' v m)).isSome := by
  by_cases hk : k = k'
  · subst hk
    rw [dictLookup_insert_self]
    rfl
  · rw [dictLookup_insert_other k k' v m hk]
    exact h

/-- Overwriting the same student/assignment pair keeps only the last score. -/
theorem applyRec_overwrite (studs : List (String × Student)) (sid an : String)
    (v v' : ℚ) :
    applyRec (applyRec studs (sid, an, v')) (sid, an, v) = applyRec studs (sid, an, v) := by
  unfold applyRec
  rw [updAt_updAt_same]
  refine congrFun (congrArg _ (funext fun st => ?_)) studs
  simp [dictInsert_overwrite]

/-- Writes to different students commute. -/
theorem applyRec_comm_sid (studs : List (String × Student)) (sid sid' an an' : String)
    (v v' : ℚ) (hne : sid ≠ sid') :
    applyRec (applyRec studs (sid, an, v)) (sid', an', v')
      = applyRec (applyRec studs (sid', an', v')) (sid, an, v) := by
  unfold applyRec
  exact updAt_comm sid' sid _ _ studs (Ne.symm hne)

/-- Writes of distinct assignments of one student commute once the first
assignment already has a recorded score. -/
theorem applyRec_comm_an (studs : List (String × Student)) (sid an an' : String)
    (v v' : ℚ) (hne : an ≠ an') (hp : (svLookup sid an studs).isSome) :
    applyRec (applyRec studs (sid, an, v)) (sid, an', v')
      = applyRec (applyRec studs (sid, an', v')) (sid, an, v) := by
  unfold applyRec
  rw [updAt_updAt_same, updAt_updAt_same]
  refine updAt_congr_lookup sid _ _ studs (fun st hst => ?_)
  have hp' : (dictLookup an st.scores).isSome := by
    unfold svLookup at hp
    rw [hst] at hp
    exact hp
  simp only
  rw [dictInsert_comm_present an an' v v' st.scores hp' hne]

/-- Writing the score a student/assignment pair already holds is a no-op. -/
theorem applyRec_absorb (studs : List (String × Student)) (sid an : String) (v : ℚ)
    (h : svLookup sid an studs = some v) : applyRec studs (sid, an, v) = studs := by
  unfold applyRec
  refine updAt_id_lookup sid _ studs (fun st hst => ?_)
  unfold svLookup at h
  rw [hst] at h
  simp only [Option.some_bind] at h
  rw [dictInsert_absorb an v st.scores h]

/-- A write to an unknown student is a no-op. -/
theorem applyRec_absent (studs : List (String × Student)) (sid an : String) (v : ℚ)
    (h : dictLookup sid studs = none) : applyRec studs (sid, an, v) = studs := by
  unfold applyRec
  exact updAt_absent sid _ studs h

/-- Single writes preserve presence of a recorded score. -/
theorem applyRec_pres_mono (studs : List (String × Student)) (sid an : String)
    (r : String × String × ℚ) (hp : (svLookup sid an studs).isSome) :
    (svLookup sid an (applyRec studs r)).isSome := by
  obtain ⟨s₀, a₀, v₀⟩ := r
  unfold svLookup at hp ⊢
  unfold applyRec
  by_cases hs : s₀ = sid
  · subst hs
    rw [dictLookup_updAt_self]
    cases hst : dictLookup s₀ studs with
    | none => rw [hst] at hp; simp at hp
    | some st =>
      rw [hst] at hp
      simp only [Option.map_some', Option.some_bind]
      simp only [Option.some_bind] at hp
      exact dictInsert_lookup_isSome_mono an a₀ v₀ st.scores hp
  · rw [dictLookup_updAt_other sid s₀ _ studs (fun hc => hs (hc.symm))]
    exact hp

/-- A write to a different student/assignment pair does not change an
observed score. -/
theorem applyRec_val_other (studs : List (String × Student)) (sid an : String)
    (r : String × String × ℚ) (h : r.1 ≠ sid ∨ r.2.1 ≠ an) :
    svLookup sid an (applyRec studs r) = svLookup sid an studs := by
  obtain ⟨s₀, a₀, v₀⟩ := r
  unfold svLookup applyRec
  by_cases hs : s₀ = sid
  · subst hs
    rw [dictLookup_updAt_self]
    cases hst : dictLookup s₀ studs with
    | none => rfl
    | some st =>
      simp only [Option.map_some', Option.some_bind]
      have ha : a₀ ≠ an := by
        rcases h with h | h
        · exact absurd rfl h
        · exact h
      rw [dictLookup_insert_other an a₀ v₀ st.scores (fun hc => ha hc.symm)]
  · rw [dictLookup_updAt_other sid s₀ _ studs (fun hc => hs hc.symm)]

/-- Splitting a sequence of score writes. -/
theorem applyRecs_append (studs : List (String × Student))
    (rs ss : List (String × String × ℚ)) :
    applyRecs studs (rs ++ ss) = applyRecs (applyRecs studs rs) ss := by
  unfold applyRecs
  rw [List.foldl_append]

/-- Score writes never change which student ids are present. -/
theorem applyRecs_isSome (rs : List (String × String × ℚ)) :
    ∀ (studs : List (String × Student)) (k : String),
      (dictLookup k (applyRecs studs rs)).isSome = (dictLookup k studs).isSome := by
  induction rs with
  | nil => intro studs k; rfl
  | cons r rs ih =>
    intro studs k
    have hstep : (dictLookup k (applyRec studs r)).isSome
        = (dictLookup k studs).isSome := by
      unfold applyRec
      exact updAt_lookup_isSome k r.1 _ studs
    calc (dictLookup k (applyRecs studs (r :: rs))).isSome
        = (dictLookup k (applyRecs (applyRec studs r) rs)).isSome := rfl
      _ = (dictLookup k (applyRec studs r)).isSome := ih (applyRec studs r) k
      _ = (dictLookup k studs).isSome := hstep

/-- Sequences of writes preserve presence of a recorded score. -/
theorem applyRecs_pres_mono (rs : List (String × String × ℚ)) :
    ∀ (studs : List (String × Student)) (sid an : String),
      (svLookup sid an studs).isSome → (svLookup sid an (applyRecs studs rs)).isSome := by
  induction rs with
  | nil => intro studs sid an h; exact h
  | cons r rs ih =>
    intro studs sid an h
    exact ih (applyRec studs r) sid an (applyRec_pres_mono studs sid an r h)

/-- Writes that never target a given student/assignment pair leave its
observed score unchanged. -/
theorem applyRecs_val_other (rs : List (String × String × ℚ)) :
    ∀ (studs : List (String × Student)) (sid an : String),
      (∀ r ∈ rs, r.1 ≠ sid ∨ r.2.1 ≠ an) →
      svLookup sid an (applyRecs studs rs) = svLookup sid an studs := by
  induction rs with
  | nil => intro studs sid an _; rfl
  | cons r rs ih =>
    intro studs sid an h
    calc svLookup sid an (applyRecs (applyRec studs r) rs)
        = svLookup sid an (applyRec studs r) :=
          ih (applyRec studs r) sid an (fun r' hr' => h r' (List.mem_cons_of_mem r hr'))
      _ = svLookup sid an studs :=
          applyRec_val_other studs sid an r (h r (List.mem_cons_self r rs))

/-- An extra leading write to a pair that is rewritten later in the sequence
does not change the outcome (last write wins). -/
theorem applyRecs_dup_write (rs : List (String × String × ℚ)) :
    ∀ (studs : List (String × Student)) (sid an : String) (v : ℚ),
      (svLookup sid an studs).isSome → (∃ w, (sid, an, w) ∈ rs) →
      applyRecs (applyRec studs (sid, an, v)) rs = applyRecs studs rs := by
  induction rs with
  | nil =>
    intro studs sid an v _ hex
    obtain ⟨w, hw⟩ := hex
    simp at hw
  | cons r₀ rs₂ ih =>
    intro studs sid an v hp hex
    obtain ⟨s₀, a₀, v₀⟩ := r₀
    by_cases hsame : s₀ = sid ∧ a₀ = an
    · obtain ⟨rfl, rfl⟩ := hsame
      show applyRecs (applyRec (applyRec studs (s₀, a₀, v)) (s₀, a₀, v₀)) rs₂
        = applyRecs (applyRec studs (s₀, a₀, v₀)) rs₂
      rw [applyRec_overwrite studs s₀ a₀ v₀ v]
    · have hcomm : applyRec (applyRec studs (sid, an, v)) (s₀, a₀, v₀)
          = applyRec (applyRec studs (s₀, a₀, v₀)) (sid, an, v) := by
        by_cases hs : s₀ = sid
        · subst hs
          have ha : an ≠ a₀ := by
            intro hc
            exact hsame ⟨rfl, hc.symm⟩
          exact applyRec_comm_an studs s₀ an a₀ v v₀ ha hp
        · exact applyRec_comm_sid studs sid s₀ an a₀ v v₀ (fun hc => hs hc.symm)
      show applyRecs (applyRec (applyRec studs (sid, an, v)) (s₀, a₀, v₀)) rs₂
        = applyRecs (applyRec studs (s₀, a₀, v₀)) rs₂
      rw [hcomm]
      apply ih (applyRec studs (s₀, a₀, v₀)) sid an v
        (applyRec_pres_mono studs sid an (s₀, a₀, v₀) hp)
      obtain ⟨w, hw⟩ := hex
      rcases List.mem_cons.mp hw with heq | hmem
      · exfalso
        apply hsame
        have h1 : s₀ = sid := congrArg Prod.fst heq.symm
        have h2 : a₀ = an := congrArg (fun x => x.2.1) heq.symm
        exact ⟨h1, h2⟩
      · exact ⟨w, hmem⟩

/-- Replaying a suffix of an already-applied write sequence is a no-op. -/
theorem applyRecs_twice_aux (rs : List (String × String × ℚ)) :
    ∀ (us : List (String × String × ℚ)) (studs : List (String × Student)),
      applyRecs (applyRecs studs (us ++ rs)) rs = applyRecs studs (us ++ rs) := by
  induction rs with
  | nil => intro us studs; rfl
  | cons r rs' ih =>
    intro us studs
    obtain ⟨sid, an, v⟩ := r
    have hsplit : us ++ (sid, an, v) :: rs' = (us ++ [(sid, an, v)]) ++ rs' := by
      simp
    have hT : applyRecs studs (us ++ (sid, an, v) :: rs')
        = applyRecs (applyRec (applyRecs studs us) (sid, an, v)) rs' := by
      rw [hsplit, applyRecs_append, applyRecs_append]
      rfl
    have hIH : applyRecs (applyRecs studs (us ++ (sid, an, v) :: rs')) rs'
        = applyRecs studs (us ++ (sid, an, v) :: rs') := by
      have := ih (us ++ [(sid, an, v)]) studs
      rw [← hsplit] at this
      exact this
    show applyRecs (applyRec (applyRecs studs (us ++ (sid, an, v) :: rs')) (sid, an, v)) rs'
      = applyRecs studs (us ++ (sid, an, v) :: rs')
    by_cases hknown : (dictLookup sid (applyRecs studs us)).isSome
    · have hpresN : (svLookup sid an
          (applyRec (applyRecs studs us) (sid, an, v))).isSome := by
        unfold svLookup applyRec
        rw [dictLookup_updAt_self]
        obtain ⟨st, hst⟩ := Option.isSome_iff_exists.mp hknown
        rw [hst]
        simp only [Option.map_some', Option.some_bind]
        rw [dictLookup_insert_self]
        rfl
      by_cases hdup : ∃ w, (sid, an, w) ∈ rs'
      · have hpresT : (svLookup sid an
            (applyRecs studs (us ++ (sid, an, v) :: rs'))).isSome := by
          rw [hT]
          exact applyRecs_pres_mono rs' _ sid an hpresN
        rw [applyRecs_dup_write rs' _ sid an v hpresT hdup]
        exact hIH
      · have hval : svLookup sid an (applyRecs studs (us ++ (sid, an, v) :: rs'))
            = some v := by
          rw [hT]
          rw [applyRecs_val_other rs' _ sid an ?hother]
          case hother =>
            intro r' hr'
            by_contra hc
            push_neg at hc
            exact hdup ⟨r'.2.2, by
              have : r' = (sid, an, r'.2.2) := by
                obtain ⟨a, b, c⟩ := r'
                simp at hc
                simp [hc.1, hc.2]
              rw [← this]
              exact hr'⟩
          unfold svLookup applyRec
          rw [dictLookup_updAt_self]
          obtain ⟨st, hst⟩ := Option.isSome_iff_exists.mp hknown
          rw [hst]
          simp only [Option.map_some', Option.some_bind]
          rw [dictLookup_insert_self]
        rw [applyRec_absorb _ sid an v hval]
        exact hIH
    · have habs : dictLookup sid (applyRecs studs (us ++ (sid, an, v) :: rs')) = none := by
        have h1 := applyRecs_isSome (us ++ (sid, an, v) :: rs') studs sid
        have h2 := applyRecs_isSome us studs sid
        cases hr : dictLookup sid (applyRecs studs (us ++ (sid, an, v) :: rs')) with
        | none => rfl
        | some st =>
          exfalso
          apply hknown
          rw [h2, ← h1, hr]
          rfl
      rw [applyRec_absent _ sid an v habs]
      exact hIH

/-- Replaying a whole write sequence is a no-op: last write wins per pair. -/
theorem applyRecs_idem (rs : List (String × String × ℚ))
    (studs : List (String × Student)) :
    applyRecs (applyRecs studs rs) rs = applyRecs studs rs := by
  have := applyRecs_twice_aux rs [] studs
  simpa using this

/-- Splitting a sequence of auto-registrations. -/
theorem applyEns_append (m : List (String × Assignment)) (xs ys : List String) :
    applyEns m (xs ++ ys) = applyEns (applyEns m xs) ys := by
  unfold applyEns
  rw [List.foldl_append]

/-- Auto-registration preserves presence of every key. -/
theorem ensD_isSome_mono (m : List (String × Assignment)) (an k : String)
    (h : (dictLookup k m).isSome) : (dictLookup k (ensD m an)).isSome := by
  unfold ensD
  split
  · exact h
  · exact dictInsert_lookup_isSome_mono k an _ m h

/-- Sequences of auto-registrations preserve presence of every key. -/
theorem applyEns_isSome_mono (names : List String) :
    ∀ (m : List (String × Assignment)) (k : String),
      (dictLookup k m).isSome → (dictLookup k (applyEns m names)).isSome := by
  induction names with
  | nil => intro m k h; exact h
  | cons n ns ih => intro m k h; exact ih (ensD m n) k (ensD_isSome_mono m n k h)

/-- After registering a name, the name is present. -/
theorem ensD_self_isSome (m : List (String × Assignment)) (an : String) :
    (dictLookup an (ensD m an)).isSome := by
  unfold ensD
  split
  · assumption
  · rw [dictLookup_insert_self]
    rfl

/-- Every registered name is present afterwards. -/
theorem applyEns_all_present (names : List String) :
    ∀ (m : List (String × Assignment)), ∀ a ∈ names,
      (dictLookup a (applyEns m names)).isSome := by
  induction names with
  | nil => intro m a ha; simp at ha
  | cons n ns ih =>
    intro m a ha
    rcases List.mem_cons.mp ha with rfl | hmem
    · exact applyEns_isSome_mono ns (ensD m a) a (ensD_self_isSome m a)
    · exact ih (ensD m n) a hmem

/-- Registering only already-present names is a no-op. -/
theorem applyEns_of_all_present (names : List String) :
    ∀ (m : List (String × Assignment)),
      (∀ a ∈ names, (dictLookup a m).isSome) → applyEns m names = m := by
  induction names with
  | nil => intro m _; rfl
  | cons n ns ih =>
    intro m h
    have hn : ensD m n = m := by
      unfold ensD
      rw [if_pos (h n (List.mem_cons_self n ns))]
    show applyEns (ensD m n) ns = m
    rw [hn]
    exact ih m (fun a ha => h a (List.mem_cons_of_mem n ha))

/-- Replaying a sequence of auto-registrations is a no-op. -/
theorem applyEns_idem (names : List String) (m : List (String × Assignment)) :
    applyEns (applyEns m names) names = applyEns m names :=
  applyEns_of_all_present names _ (applyEns_all_present names m)

/-- Applying no writes is the identity. -/
theorem applyRecs_nil (studs : List (String × Student)) : applyRecs studs [] = studs := rfl

/-- Applying no registrations is the identity. -/
theorem applyEns_nil (m : List (String × Assignment)) : applyEns m [] = m := rfl

/-- Eta rule for the course structure. -/
theorem course_eta (c : Course) :
    ({ course_code := c.course_code, title := c.title, students := c.students,
       assignments := c.assignments } : Course) = c := rfl

/-- One wide cell, in trace form: its score write and its registration. -/
theorem wideCell_eq (sid : String) (row : List String) (c : Course) (ian : ℕ × String) :
    wideCell sid row c ian = { c with
      students := applyRecs c.students (cellRecs sid row ian),
      assignments := applyEns c.assignments (cellEnss row ian) } := by
  unfold wideCell cellRecs cellEnss
  cases cellVal row (ian.1 + 1) with
  | none => rfl
  | some score => rfl

/-- The cell loop of a wide row, in trace form. -/
theorem foldl_wideCell_eq (sid : String) (row : List String) (l : List (ℕ × String)) :
    ∀ c : Course, l.foldl (wideCell sid row) c = { c with
      students := applyRecs c.students (l.flatMap (cellRecs sid row)),
      assignments := applyEns c.assignments (l.flatMap (cellEnss row)) } := by
  induction l with
  | nil => intro c; rfl
  | cons x l ih =>
    intro c
    rw [List.foldl_cons, wideCell_eq, ih]
    simp only [List.flatMap_cons, applyRecs_append, applyEns_append]

/-- One wide row, in trace form. -/
theorem wideRow_eq (anames : List String) (c : Course) (p f : ℕ) (row : List String) :
    wideRow anames (c, p, f) row = ({ c with
        students := applyRecs c.students (rowRecs (known c) anames row),
        assignments := applyEns c.assignments (rowEnss (known c) anames row) },
      p + (rowCount (known c) row).1, f + (rowCount (known c) row).2) := by
  unfold wideRow rowRecs rowEnss rowCount
  simp only [List.getD_eq_getElem?_getD]
  by_cases hrow : row = []
  · simp [hrow, applyRecs_nil, applyEns_nil, course_eta]
  · by_cases hk : known c (pyStrip ((row[0]?).getD "")) = true
    · simp [hrow, hk, foldl_wideCell_eq]
    · simp [hrow, hk, applyRecs_nil, applyEns_nil, course_eta]

/-- The wide-format row loop, in trace form: the traces and counters are
functions of the rows and the (invariant) student-membership predicate. -/
theorem foldl_wideRow_eq (anames : List String) (rows : List (List String)) :
    ∀ (c : Course) (p f : ℕ),
      rows.foldl (wideRow anames) (c, p, f) = ({ c with
          students := applyRecs c.students (rows.flatMap (rowRecs (known c) anames)),
          assignments := applyEns c.assignments (rows.flatMap (rowEnss (known c) anames)) },
        p + (rows.map (fun row => (rowCount (known c) row).1)).sum,
        f + (rows.map (fun row => (rowCount (known c) row).2)).sum) := by
  induction rows with
  | nil => intro c p f; simp [applyRecs_nil, applyEns_nil, course_eta]
  | cons row rows ih =>
    intro c p f
    rw [List.foldl_cons, wideRow_eq, ih]
    have hkn : known ({ c with
        students := applyRecs c.students (rowRecs (known c) anames row),
        assignments := applyEns c.assignments (rowEnss (known c) anames row) } : Course)
        = known c := by
      funext k
      show (dictLookup k (applyRecs c.students _)).isSome
        = (dictLookup k c.students).isSome
      exact applyRecs_isSome _ _ k
    rw [hkn]
    simp only [List.flatMap_cons, List.map_cons, List.sum_cons, applyRecs_append,
      applyEns_append]
    simp [Nat.add_assoc]

/-- One narrow row, in trace form. -/
theorem narrowRow_eq (c : Course) (p f : ℕ) (row : List String) :
    narrowRow (c, p, f) row = ({ c with
        students := applyRecs c.students (nrowRecs (known c) row),
        assignments := applyEns c.assignments (nrowEnss (known c) row) },
      p + (nrowCount (known c) row).1, f + (nrowCount (known c) row).2) := by
  unfold narrowRow nrowRecs nrowEnss nrowCount
  simp only [List.getD_eq_getElem?_getD]
  by_cases hlen : row.length < 3
  · simp [hlen, applyRecs_nil, applyEns_nil, course_eta]
  · simp only [hlen, if_false]
    cases hpf : pyFloat? (pyStrip ((row[2]?).getD "")) with
    | none => simp [applyRecs_nil, applyEns_nil, course_eta]
    | some score =>
      by_cases hk : known c (pyStrip ((row[0]?).getD "")) = true
      · simp [hk, recordScore, ensureAssignment, applyRecs, applyEns]
      · simp [hk, applyRecs_nil, applyEns_nil, course_eta]

/-- The narrow-format row loop, in trace form. -/
theorem foldl_narrowRow_eq (rows : List (List String)) :
    ∀ (c : Course) (p f : ℕ),
      rows.foldl narrowRow (c, p, f) = ({ c with
          students := applyRecs c.students (rows.flatMap (nrowRecs (known c))),
          assignments := applyEns c.assignments (rows.flatMap (nrowEnss (known c))) },
        p + (rows.map (fun row => (nrowCount (known c) row).1)).sum,
        f + (rows.map (fun row => (nrowCount (known c) row).2)).sum) := by
  induction rows with
  | nil => intro c p f; simp [applyRecs_nil, applyEns_nil, course_eta]
  | cons row rows ih =>
    intro c p f
    rw [List.foldl_cons, narrowRow_eq, ih]
    have hkn : known ({ c with
        students := applyRecs c.students (nrowRecs (known c) row),
        assignments := applyEns c.assignments (nrowEnss (known c) row) } : Course)
        = known c := by
      funext k
      show (dictLookup k (applyRecs c.students _)).isSome
        = (dictLookup k c.students).isSome
      exact applyRecs_isSome _ _ k
    rw [hkn]
    simp only [List.flatMap_cons, List.map_cons, List.sum_cons, applyRecs_append,
      applyEns_append]
    simp [Nat.add_assoc]

/-- C9: bulk ingestion is idempotent — re-ingesting the same rows leaves the
whole course state (score store included) and the returned counters exactly
as after the first ingestion, because per-cell score writes are
last-write-wins and auto-registration only fires on absent names.  This holds
for every input, in particular for well-formed wide-format input. -/
theorem bulk_import_idempotent (c : Course) (rows : List (List String)) :
    bulk_import_grades_csv (bulk_import_grades_csv c rows).1 rows
      = bulk_import_grades_csv c rows := by
  match rows with
  | [] => rfl
  | first :: rest =>
    by_cases hw : isWideHeader first = true
    · have hb : ∀ d : Course, bulk_import_grades_csv d (first :: rest)
          = rest.foldl (wideRow ((first.map pyStrip).drop 1)) (d, 0, 0) := by
        intro d
        show (if isWideHeader first then
            rest.foldl (wideRow ((first.map pyStrip).drop 1)) (d, 0, 0)
          else (first :: rest).foldl narrowRow (d, 0, 0)) = _
        rw [if_pos hw]
      rw [hb c, foldl_wideRow_eq, hb, foldl_wideRow_eq]
      have hkn : known ({ c with
          students := applyRecs c.students
            (rest.flatMap (rowRecs (known c) ((first.map pyStrip).drop 1))),
          assignments := applyEns c.assignments
            (rest.flatMap (rowEnss (known c) ((first.map pyStrip).drop 1))) } : Course)
          = known c := by
        funext k
        show (dictLookup k (applyRecs c.students _)).isSome
          = (dictLookup k c.students).isSome
        exact applyRecs_isSome _ _ k
      rw [hkn]
      dsimp only
      rw [applyRecs_idem, applyEns_idem]
    · have hb : ∀ d : Course, bulk_import_grades_csv d (first :: rest)
          = (first :: rest).foldl narrowRow (d, 0, 0) := by
        intro d
        show (if isWideHeader first then
            rest.foldl (wideRow ((first.map pyStrip).drop 1)) (d, 0, 0)
          else (first :: rest).foldl narrowRow (d, 0, 0)) = _
        rw [if_neg hw]
      rw [hb c, foldl_narrowRow_eq, hb, foldl_narrowRow_eq]
      have hkn : known ({ c with
          students := applyRecs c.students ((first :: rest).flatMap (nrowRecs (known c))),
          assignments := applyEns c.assignments
            ((first :: rest).flatMap (nrowEnss (known c))) } : Course)
          = known c := by
        funext k
        show (dictLookup k (applyRecs c.students _)).isSome
          = (dictLookup k c.students).isSome
        exact applyRecs_isSome _ _ k
      rw [hkn]
      dsimp only
      rw [applyRecs_idem, applyEns_idem]

end Grading
